import Mathlib

/-!
Verification of the QR recognition core of the QRcode-PWA repository.

The definitions below are shallow embeddings of the TypeScript sources:
  * `src/lib/utils/qrcore.ts` — luminance conversion, luminance buffer
    pools, and the two-stage ZXing decode retry logic;
  * the `QRDecoder` class (video scan state machine, ROI geometry,
    canvas pools, one-shot decode pipeline).

JavaScript numbers are modelled as `ℚ` where fractional values can occur
(timestamps, scales, box coordinates) and as `Int`/`Nat` where the code
only ever manipulates integral values (pixel sizes, counters).  The
`x >> 8` shifts of the luminance path act on small non-negative integers
and are modelled as division by 256.  Stateful code is modelled by
explicit state passing; the external ZXing reader and the platform
BarcodeDetector are modelled as oracle parameters, since the claims are
about the surrounding control flow, not about the black-box decoders.
-/

namespace QrPwa

/-! ## Luminance conversion (`rgbaToLuminanceInto` in qrcore.ts) -/

/-- Integer BT.709-like luminance of one pixel:
`(r * 54 + g * 183 + b * 19 + 128) >> 8` in the source, acting on byte
values, hence modelled as division by 256. -/
def lumY (r g b : Nat) : Nat := (r * 54 + g * 183 + b * 19 + 128) / 256

/-- Alpha handling of `rgbaToLuminanceInto` for a single pixel:
opaque pixels keep `lumY`, fully transparent pixels become white (255),
and partially transparent pixels are composited over white. -/
def lumPix (r g b a : Nat) : Nat :=
  let y := lumY r g b
  if a = 255 then y
  else if a = 0 then 255
  else (y * a + 255 * (255 - a) + 128) / 256

/-- Loop of `rgbaToLuminanceInto`: for `j = 0 .. pixelCount-1` write
`lumPix` of channels `rgba[4j .. 4j+3]` into `out[j]`.  Buffers are
modelled as index functions; the recursion performs the writes of the
source loop one index at a time. -/
def rgbaToLuminanceInto (rgba : Nat → Nat) (out : Nat → Nat) : Nat → (Nat → Nat)
  | 0 => out
  | n + 1 =>
    Function.update (rgbaToLuminanceInto rgba out n) n
      (lumPix (rgba (4 * n)) (rgba (4 * n + 1)) (rgba (4 * n + 2)) (rgba (4 * n + 3)))

theorem rgbaToLuminanceInto_apply (rgba out : Nat → Nat) (n j : Nat) :
    rgbaToLuminanceInto rgba out n j =
      if j < n then lumPix (rgba (4 * j)) (rgba (4 * j + 1)) (rgba (4 * j + 2)) (rgba (4 * j + 3))
      else out j := by
  induction n with
  | zero => simp [rgbaToLuminanceInto]
  | succ k ih =>
    by_cases hj : j = k
    · subst hj
      simp [rgbaToLuminanceInto, Function.update, ih]
    · simp only [rgbaToLuminanceInto, Function.update, dif_neg hj]
      rw [ih]
      rcases Nat.lt_trichotomy j k with h | h | h
      · rw [if_pos h, if_pos (Nat.lt_succ_of_lt h)]
      · exact absurd h hj
      · rw [if_neg (Nat.not_lt.mpr h), if_neg (by omega)]

/-! ## Luminance buffer pools (`ensureLumBuffer` / `releaseVideoLumPool`) -/

/-- Usage class of a luminance buffer request (`'normal' | 'video'`). -/
inductive LumKind | normal | video
deriving DecidableEq

/-- Capacities of the two module-level luminance backing buffers of
qrcore.ts (`lumBuf` and `videoLumBuf`).  In the source these are
module-scope `let` bindings, not fields of any class instance. -/
structure LumPools where
  lumBufLen : Nat
  videoLumBufLen : Nat
deriving DecidableEq

/-- View on the byte buffer returned by `ensureLumBuffer`: whether the
returned object is the pool's backing array (as opposed to a freshly
allocated one) and its length. -/
structure LumBuffer where
  pooled : Bool
  len : Nat
deriving DecidableEq

/-- Size ceiling `MAX_CACHED_PIXELS = 2048 * 2048` of qrcore.ts. -/
def MAX_CACHED_PIXELS : Nat := 2048 * 2048

def LumPools.get (p : LumPools) : LumKind → Nat
  | .normal => p.lumBufLen
  | .video => p.videoLumBufLen

def LumPools.set (p : LumPools) : LumKind → Nat → LumPools
  | .normal, n => { p with lumBufLen := n }
  | .video, n => { p with videoLumBufLen := n }

/-- `ensureLumBuffer(kind, needed)`: `needed <= 0` yields a fresh empty
array; requests above the ceiling bypass the pool; otherwise the backing
buffer is reused, growing (never shrinking) to
`max(needed, Math.floor(length * 1.25))` when too small.
`Math.floor(len * 1.25)` is exact on these sizes and equals `5*len/4`
in natural division (the source's `|| needed` fallback for a zero
product coincides with the `max`). -/
def ensureLumBuffer (pools : LumPools) (kind : LumKind) (needed : Nat) :
    LumBuffer × LumPools :=
  if needed = 0 then (⟨false, 0⟩, pools)
  else if MAX_CACHED_PIXELS < needed then (⟨false, needed⟩, pools)
  else
    let len := pools.get kind
    if len < needed then
      let next := max needed (5 * len / 4)
      (⟨true, next⟩, pools.set kind next)
    else (⟨true, len⟩, pools)

/-- `releaseVideoLumPool()`: resets the video backing buffer to empty. -/
def releaseVideoLumPool (pools : LumPools) : LumPools :=
  { pools with videoLumBufLen := 0 }

theorem LumPools.get_set_same (p : LumPools) (k : LumKind) (v : Nat) :
    (p.set k v).get k = v := by
  cases k <;> rfl

theorem LumPools.get_set_other (p : LumPools) (k k2 : LumKind) (v : Nat) (h : k2 ≠ k) :
    (p.set k v).get k2 = p.get k2 := by
  cases k <;> cases k2 <;> first | rfl | exact absurd rfl h

/-! ## Adaptive crop scale (`adaptCropScale` in the QRDecoder class) -/

/-- `adaptCropScale(base, roiW, roiH, srcW, srcH)`: clamp the base scale
to `[0.25, 2]`, floor both areas at 1, and nudge the scale up for small
ROIs (`ratio < 0.1`) or down for large ones (`ratio > 0.6`).  The
decimal literals are modelled by the exact rationals they denote; the
float rounding of `0.1`, `0.6`, `0.8` only moves the branch cut, which
no claim depends on. -/
def adaptCropScale (base roiW roiH srcW srcH : ℚ) : ℚ :=
  let b := max (1/4) (min 2 base)
  let area := max 1 (roiW * roiH)
  let srcArea := max 1 (srcW * srcH)
  let r := area / srcArea
  if r < 1/10 then min 2 (b * (3/2))
  else if r > 3/5 then max (1/2) (b * (4/5))
  else b

/-! ## ROI geometry (`computeRoi`, `clampSmallRoi`, `clampSize`) -/

/-- Rectangle as supplied by callers of `computeRoi`: JavaScript numbers,
either absolute pixels or fractions of the source size. -/
structure RectQ where
  x : ℚ
  y : ℚ
  width : ℚ
  height : ℚ
deriving DecidableEq

/-- ROI in absolute integer pixels, as produced by `computeRoi` and
`clampSmallRoi`. -/
structure RoiI where
  sx : Int
  sy : Int
  sWidth : Int
  sHeight : Int
deriving DecidableEq

/-- `Math.round` of JavaScript: round half toward positive infinity.
`Rat.floor` is the floor function on `ℚ` (`Rat.floor_eq_div`). -/
def jsRound (q : ℚ) : Int := (q + 1/2).floor

/-- `isRelativeRoi`: every coordinate within `[0,1]` with positive
width and height. -/
def isRelativeRoi (r : RectQ) : Bool :=
  decide (0 ≤ r.x ∧ r.x ≤ 1 ∧ 0 ≤ r.y ∧ r.y ≤ 1 ∧
    0 < r.width ∧ r.width ≤ 1 ∧ 0 < r.height ∧ r.height ≤ 1)

/-- Origin fix-up of `computeRoi`: `if (sx < 0) sx = 0`. -/
def clampLow0 (v : Int) : Int := if v < 0 then 0 else v

/-- Extent fix-ups of `computeRoi` for one axis, applied after the
origin fix-up: `if (span <= 0) span = limit - pos` followed by
`if (pos + span > limit) span = limit - pos`. -/
def spanFix (pos span limit : Int) : Int :=
  let s1 := if span ≤ 0 then limit - pos else span
  if limit < pos + s1 then limit - pos else s1

/-- Sequential fix-ups at the end of `computeRoi`: clamp negative
origins to 0, replace non-positive extents by the remaining span, then
cap extents at the source bounds. -/
def computeRoiFix (sx0 sy0 sw0 sh0 w h : Int) : RoiI :=
  ⟨clampLow0 sx0, clampLow0 sy0,
   spanFix (clampLow0 sx0) sw0 w, spanFix (clampLow0 sy0) sh0 h⟩

/-- `computeRoi(roi, w, h)`: no rectangle means the full frame; a
relative rectangle is scaled by the source size; coordinates are
rounded and then clamped by `computeRoiFix`. -/
def computeRoi (roi : Option RectQ) (w h : Int) : RoiI :=
  match roi with
  | none => ⟨0, 0, w, h⟩
  | some r =>
    if isRelativeRoi r then
      computeRoiFix (jsRound (r.x * w)) (jsRound (r.y * h))
        (jsRound (r.width * w)) (jsRound (r.height * h)) w h
    else
      computeRoiFix (jsRound r.x) (jsRound r.y) (jsRound r.width) (jsRound r.height) w h

/-- Origin shift of `clampSmallRoi` for one axis: when the extent is
below `minSize`, move the origin toward 0 by half the deficit. -/
def expandPos (pos span minSize : Int) : Int :=
  if span < minSize then max 0 (pos - Int.ediv (minSize - span) 2) else pos

/-- Extent expansion of `clampSmallRoi` for one axis (applied with the
already shifted origin): extend to `minSize`, capped at the remaining
span. -/
def expandSpan (pos' span limit minSize : Int) : Int :=
  if span < minSize then min (limit - pos') minSize else span

/-- Final cap of `clampSmallRoi` for one axis:
`if (pos + span > limit) span = limit - pos`. -/
def capSpan (pos span limit : Int) : Int :=
  if limit < pos + span then limit - pos else span

/-- `clampSmallRoi(sx, sy, sWidth, sHeight, w, h, minSize)`: when an
edge is below `minSize`, move the origin up/left by half the deficit
(not below 0) and extend the edge to `minSize` capped at the remaining
span; finally cap both edges at the source bounds.  `Math.floor(diff/2)`
is floor division, i.e. `Int.ediv`. -/
def clampSmallRoi (sx sy sw sh w h minSize : Int) : RoiI :=
  ⟨expandPos sx sw minSize,
   expandPos sy sh minSize,
   capSpan (expandPos sx sw minSize) (expandSpan (expandPos sx sw minSize) sw w minSize) w,
   capSpan (expandPos sy sh minSize) (expandSpan (expandPos sy sh minSize) sh h minSize) h⟩

/-- `clampSize(w, h, maxEdge)`: proportionally scale down so the larger
edge is at most `maxEdge`; each result edge is rounded and floored at 1.
JavaScript `Math.round` on the scaled rational value. -/
def clampSize (w h maxEdge : Int) : Int × Int :=
  if max w h ≤ maxEdge then (w, h)
  else
    let s : ℚ := (maxEdge : ℚ) / (max w h : ℚ)
    (max 1 (jsRound (w * s)), max 1 (jsRound (h * s)))

/-- Composition checked by the ROI clamp claim: `computeRoi` followed by
`clampSmallRoi` with the default 32 px minimum edge. -/
def roiPipeline (roi : Option RectQ) (w h : Int) : RoiI :=
  let c := computeRoi roi w h
  clampSmallRoi c.sx c.sy c.sWidth c.sHeight w h 32

theorem computeRoiFix_bounds (sx0 sy0 sw0 sh0 w h : Int) :
    0 ≤ (computeRoiFix sx0 sy0 sw0 sh0 w h).sx ∧
    0 ≤ (computeRoiFix sx0 sy0 sw0 sh0 w h).sy ∧
    (computeRoiFix sx0 sy0 sw0 sh0 w h).sx + (computeRoiFix sx0 sy0 sw0 sh0 w h).sWidth ≤ w ∧
    (computeRoiFix sx0 sy0 sw0 sh0 w h).sy + (computeRoiFix sx0 sy0 sw0 sh0 w h).sHeight ≤ h := by
  unfold computeRoiFix clampLow0 spanFix
  dsimp only
  split_ifs <;> omega

theorem computeRoi_bounds (roi : Option RectQ) (w h : Int) :
    0 ≤ (computeRoi roi w h).sx ∧
    0 ≤ (computeRoi roi w h).sy ∧
    (computeRoi roi w h).sx + (computeRoi roi w h).sWidth ≤ w ∧
    (computeRoi roi w h).sy + (computeRoi roi w h).sHeight ≤ h := by
  cases roi with
  | none => simp [computeRoi]
  | some r =>
    simp only [computeRoi]
    split_ifs <;> exact computeRoiFix_bounds _ _ _ _ w h

theorem expandPos_nonneg (pos span minSize : Int) (hp : 0 ≤ pos) :
    0 ≤ expandPos pos span minSize := by
  unfold expandPos
  split_ifs
  · exact le_max_left 0 _
  · exact hp

theorem expandPos_le (pos span minSize : Int) (hp : 0 ≤ pos) (hm : span < minSize) :
    expandPos pos span minSize ≤ pos := by
  unfold expandPos
  rw [if_pos hm]
  have h0 : 0 ≤ Int.ediv (minSize - span) 2 :=
    Int.ediv_nonneg (by omega) (by norm_num)
  omega

theorem clampSmallRoi_bounds (sx sy sw sh w h : Int)
    (hx : 0 ≤ sx) (hy : 0 ≤ sy) :
    0 ≤ (clampSmallRoi sx sy sw sh w h 32).sx ∧
    0 ≤ (clampSmallRoi sx sy sw sh w h 32).sy ∧
    (clampSmallRoi sx sy sw sh w h 32).sx + (clampSmallRoi sx sy sw sh w h 32).sWidth ≤ w ∧
    (clampSmallRoi sx sy sw sh w h 32).sy + (clampSmallRoi sx sy sw sh w h 32).sHeight ≤ h := by
  refine ⟨expandPos_nonneg _ _ _ hx, expandPos_nonneg _ _ _ hy, ?_, ?_⟩ <;>
  · simp only [clampSmallRoi]
    unfold capSpan expandSpan
    split_ifs <;> omega

theorem clampSmallRoi_minWidth (sx sy sw sh w h : Int)
    (hx : 0 ≤ sx) (hroom : sx ≤ w - 32) :
    32 ≤ (clampSmallRoi sx sy sw sh w h 32).sWidth := by
  have hnx : expandPos sx sw 32 ≤ w - 32 := by
    by_cases hm : sw < 32
    · exact le_trans (expandPos_le sx sw 32 hx hm) hroom
    · simp only [expandPos, if_neg hm]; exact hroom
  simp only [clampSmallRoi]
  unfold capSpan expandSpan
  split_ifs <;> omega

theorem clampSmallRoi_minHeight (sx sy sw sh w h : Int)
    (hy : 0 ≤ sy) (hroom : sy ≤ h - 32) :
    32 ≤ (clampSmallRoi sx sy sw sh w h 32).sHeight := by
  have hny : expandPos sy sh 32 ≤ h - 32 := by
    by_cases hm : sh < 32
    · exact le_trans (expandPos_le sy sh 32 hy hm) hroom
    · simp only [expandPos, if_neg hm]; exact hroom
  simp only [clampSmallRoi]
  unfold capSpan expandSpan
  split_ifs <;> omega

/-! ## Claim C1 — ROI clamp invariant -/

/-- C1 (amended).  For every input rectangle and source size, the ROI
produced by `computeRoi` followed by `clampSmallRoi` satisfies
`0 ≤ x`, `0 ≤ y`, `x + width ≤ sourceWidth` and
`y + height ≤ sourceHeight`.  The 32 px minimum edge, however, is only
guaranteed on an axis when the computed pre-clamp ROI origin leaves at
least 32 px to the source edge (`x ≤ sourceWidth - 32`, resp.
`y ≤ sourceHeight - 32`): the expansion only moves the origin up/left
and clips at the far edge, so a small ROI flush against the right or
bottom edge keeps an edge below 32 even on a large source. -/
theorem roi_clamp_invariant_amended (roi : Option RectQ) (w h : Int) :
    (0 ≤ (roiPipeline roi w h).sx ∧ 0 ≤ (roiPipeline roi w h).sy ∧
     (roiPipeline roi w h).sx + (roiPipeline roi w h).sWidth ≤ w ∧
     (roiPipeline roi w h).sy + (roiPipeline roi w h).sHeight ≤ h) ∧
    ((computeRoi roi w h).sx ≤ w - 32 → 32 ≤ (roiPipeline roi w h).sWidth) ∧
    ((computeRoi roi w h).sy ≤ h - 32 → 32 ≤ (roiPipeline roi w h).sHeight) := by
  obtain ⟨h1, h2, _h3, _h4⟩ := computeRoi_bounds roi w h
  unfold roiPipeline
  exact ⟨clampSmallRoi_bounds _ _ _ _ w h h1 h2,
    fun hr => clampSmallRoi_minWidth _ _ _ _ w h h1 hr,
    fun hr => clampSmallRoi_minHeight _ _ _ _ w h h2 hr⟩

section RatEval

/- Batteries marks the `Rat` field operations irreducible, which blocks
the evaluation of concrete rational arithmetic inside `decide`; restore
the default reducibility around the concrete-input theorems. -/
attribute [local semireducible] Rat.add Rat.mul Rat.sub Rat.inv Rat.ofScientific

/-- C1 counterexample.  Source 100×100 (≥ 32 on both axes), input
rectangle `{x: 90, y: 0, width: 10, height: 100}` (absolute pixels,
fully inside the source).  `clampSmallRoi` shifts `x` to 79 and yields
width `min(100 - 79, 32) = 21 < 32`, refuting the claimed
`width ≥ 32 whenever sourceWidth ≥ 32`. -/
theorem roi_clamp_claim_counterexample :
    ¬ (0 ≤ (roiPipeline (some ⟨90, 0, 10, 100⟩) 100 100).sx ∧
       0 ≤ (roiPipeline (some ⟨90, 0, 10, 100⟩) 100 100).sy ∧
       (roiPipeline (some ⟨90, 0, 10, 100⟩) 100 100).sx +
         (roiPipeline (some ⟨90, 0, 10, 100⟩) 100 100).sWidth ≤ 100 ∧
       (roiPipeline (some ⟨90, 0, 10, 100⟩) 100 100).sy +
         (roiPipeline (some ⟨90, 0, 10, 100⟩) 100 100).sHeight ≤ 100 ∧
       32 ≤ (roiPipeline (some ⟨90, 0, 10, 100⟩) 100 100).sWidth ∧
       32 ≤ (roiPipeline (some ⟨90, 0, 10, 100⟩) 100 100).sHeight) := by
  decide

/-- Witness for `roi_clamp_invariant_amended` at a rectangle with room
to spare: 32 px minimum edge on both axes holds. -/
theorem roi_clamp_invariant_amended_witness :
    32 ≤ (roiPipeline (some ⟨10, 10, 50, 50⟩) 100 100).sWidth ∧
    32 ≤ (roiPipeline (some ⟨10, 10, 50, 50⟩) 100 100).sHeight := by
  have h := roi_clamp_invariant_amended (some ⟨10, 10, 50, 50⟩) 100 100
  exact ⟨h.2.1 (by decide), h.2.2 (by decide)⟩

end RatEval

/-! ## Claim C9 — adaptive crop scale range -/

/-- C9.  For all inputs, `adaptCropScale` returns a scale in
`[0.25, 2]`, and both areas entering the ratio are floored at 1, so the
denominator of the ratio is never zero. -/
theorem adaptCropScale_range (base roiW roiH srcW srcH : ℚ) :
    1/4 ≤ adaptCropScale base roiW roiH srcW srcH ∧
    adaptCropScale base roiW roiH srcW srcH ≤ 2 ∧
    1 ≤ max 1 (roiW * roiH) ∧ 1 ≤ max 1 (srcW * srcH) := by
  have hb1 : (1/4 : ℚ) ≤ max (1/4) (min 2 base) := le_max_left _ _
  have hb2 : max (1/4 : ℚ) (min 2 base) ≤ 2 := max_le (by norm_num) (min_le_left _ _)
  refine ⟨?_, ?_, le_max_left _ _, le_max_left _ _⟩
  · simp only [adaptCropScale]
    split_ifs
    · exact le_min (by norm_num) (by nlinarith)
    · exact le_trans (by norm_num) (le_max_left (1/2 : ℚ) _)
    · exact hb1
  · simp only [adaptCropScale]
    split_ifs
    · exact min_le_left _ _
    · exact max_le (by norm_num) (by nlinarith)
    · exact hb2

/-! ## Claim C3 — luminance conversion correctness -/

/-- C3.  For each pixel `j < n` with channels `(R,G,B,a)` at offsets
`4j .. 4j+3`, the conversion writes the claimed value: the BT.709-like
integer luminance when `a = 255`, white (255) when `a = 0`, and the
white-composited blend otherwise; positions at or beyond `n` are left
untouched.  The opaque-black, opaque-white and fully-transparent
special cases follow. -/
theorem rgbaToLuminanceInto_spec (rgba out : Nat → Nat) (n j : Nat) (hj : j < n) :
    (rgba (4*j+3) = 255 →
      rgbaToLuminanceInto rgba out n j =
        (54 * rgba (4*j) + 183 * rgba (4*j+1) + 19 * rgba (4*j+2) + 128) / 256) ∧
    (rgba (4*j+3) = 0 → rgbaToLuminanceInto rgba out n j = 255) ∧
    (rgba (4*j+3) ≠ 255 → rgba (4*j+3) ≠ 0 →
      rgbaToLuminanceInto rgba out n j =
        ((54 * rgba (4*j) + 183 * rgba (4*j+1) + 19 * rgba (4*j+2) + 128) / 256
            * rgba (4*j+3) + 255 * (255 - rgba (4*j+3)) + 128) / 256) ∧
    (∀ k, n ≤ k → rgbaToLuminanceInto rgba out n k = out k) ∧
    (rgba (4*j) = 0 ∧ rgba (4*j+1) = 0 ∧ rgba (4*j+2) = 0 ∧ rgba (4*j+3) = 255 →
      rgbaToLuminanceInto rgba out n j = 0) ∧
    (rgba (4*j) = 255 ∧ rgba (4*j+1) = 255 ∧ rgba (4*j+2) = 255 ∧ rgba (4*j+3) = 255 →
      rgbaToLuminanceInto rgba out n j = 255) := by
  have happ := rgbaToLuminanceInto_apply rgba out n j
  rw [if_pos hj] at happ
  have hnum : rgba (4*j) * 54 + rgba (4*j+1) * 183 + rgba (4*j+2) * 19 + 128 =
      54 * rgba (4*j) + 183 * rgba (4*j+1) + 19 * rgba (4*j+2) + 128 := by ring
  refine ⟨?_, ?_, ?_, ?_, ?_, ?_⟩
  · intro ha
    rw [happ]
    simp [lumPix, lumY, ha, hnum]
  · intro ha
    rw [happ]
    simp [lumPix, ha]
  · intro ha hz
    rw [happ]
    simp [lumPix, lumY, ha, hz, hnum]
  · intro k hk
    rw [rgbaToLuminanceInto_apply, if_neg (by omega)]
  · rintro ⟨hr, hg, hb, ha⟩
    rw [happ]
    simp [lumPix, lumY, hr, hg, hb, ha]
  · rintro ⟨hr, hg, hb, ha⟩
    rw [happ]
    simp [lumPix, lumY, hr, hg, hb, ha]

/-- Witness for `rgbaToLuminanceInto_spec` on a one-pixel buffer
`(R,G,B,a) = (7, 200, 30, 255)`. -/
theorem rgbaToLuminanceInto_spec_witness :
    rgbaToLuminanceInto (fun i => [7, 200, 30, 255].getD i 0) (fun _ => 9) 1 0 =
      (54 * 7 + 183 * 200 + 19 * 30 + 128) / 256 ∧
    rgbaToLuminanceInto (fun i => [7, 200, 30, 255].getD i 0) (fun _ => 9) 1 5 = 9 := by
  have h := rgbaToLuminanceInto_spec (fun i => [7, 200, 30, 255].getD i 0) (fun _ => 9) 1 0
    (by decide)
  exact ⟨h.1 (by decide), h.2.2.2.1 5 (by decide)⟩

/-! ## Claim C8 — luminance buffer growth -/

/-- C8 (amended).  Per usage class: the backing buffer capacity never
shrinks; when a positive request at or below the ceiling exceeds the
capacity, it grows to `max(needed, ⌊1.25 × capacity⌋)` and the pooled
buffer is returned; a positive request at or below both the ceiling and
the capacity returns the existing pooled buffer with no pool change;
a request above the ceiling returns a fresh uncached buffer and leaves
the pool unchanged.  A request of 0 pixels, however, returns a fresh
empty buffer (not the pooled one) while leaving the pool unchanged. -/
theorem ensureLumBuffer_growth_amended (pools : LumPools) (kind : LumKind) (n : Nat) :
    (pools.get kind ≤ (ensureLumBuffer pools kind n).2.get kind) ∧
    (∀ k2, k2 ≠ kind → (ensureLumBuffer pools kind n).2.get k2 = pools.get k2) ∧
    (1 ≤ n → n ≤ MAX_CACHED_PIXELS → pools.get kind < n →
      (ensureLumBuffer pools kind n).2.get kind = max n (5 * pools.get kind / 4) ∧
      (ensureLumBuffer pools kind n).1 = ⟨true, max n (5 * pools.get kind / 4)⟩) ∧
    (1 ≤ n → n ≤ MAX_CACHED_PIXELS → n ≤ pools.get kind →
      (ensureLumBuffer pools kind n).1 = ⟨true, pools.get kind⟩ ∧
      (ensureLumBuffer pools kind n).2 = pools) ∧
    (MAX_CACHED_PIXELS < n →
      (ensureLumBuffer pools kind n).1 = ⟨false, n⟩ ∧
      (ensureLumBuffer pools kind n).2 = pools) ∧
    (n = 0 → (ensureLumBuffer pools kind n).1 = ⟨false, 0⟩ ∧
      (ensureLumBuffer pools kind n).2 = pools) := by
  have hM : MAX_CACHED_PIXELS = 2048 * 2048 := rfl
  simp only [ensureLumBuffer]
  split_ifs with h0 hmax hlt
  · refine ⟨le_refl _, fun k2 _ => rfl, ?_, ?_, ?_, fun _ => ⟨rfl, rfl⟩⟩
    · intro h1 _ _; exfalso; omega
    · intro h1 _ _; exfalso; omega
    · intro hm; exfalso; omega
  · refine ⟨le_refl _, fun k2 _ => rfl, ?_, ?_, fun _ => ⟨rfl, rfl⟩, ?_⟩
    · intro _ h2 _; exfalso; omega
    · intro _ h2 _; exfalso; omega
    · intro h; exfalso; omega
  · refine ⟨?_, ?_, ?_, ?_, ?_, ?_⟩
    · rw [LumPools.get_set_same]; omega
    · intro k2 hk2; exact LumPools.get_set_other pools kind k2 _ hk2
    · intro _ _ _; exact ⟨LumPools.get_set_same _ _ _, rfl⟩
    · intro _ _ h3; exfalso; omega
    · intro h; exfalso; omega
    · intro h; exfalso; omega
  · refine ⟨le_refl _, fun k2 _ => rfl, ?_, fun _ _ _ => ⟨rfl, rfl⟩, ?_, ?_⟩
    · intro _ _ h3; exfalso; omega
    · intro h; exfalso; omega
    · intro h; exfalso; omega

/-- C8 counterexample.  With a normal-pool capacity of 10, a request of
0 pixels (0 ≤ capacity) returns a freshly allocated empty buffer, not
the existing pooled backing buffer. -/
theorem ensureLumBuffer_claim_counterexample :
    (ensureLumBuffer ⟨10, 0⟩ LumKind.normal 0).1.pooled = false ∧
    (0 : Nat) ≤ LumPools.get ⟨10, 0⟩ LumKind.normal := by
  decide

/-- Witness for `ensureLumBuffer_growth_amended`: growing from capacity
4 on a request of 10 reaches `max 10 5 = 10`; a request of 10 against
capacity 16 leaves the pool untouched. -/
theorem ensureLumBuffer_growth_amended_witness :
    (ensureLumBuffer ⟨4, 0⟩ LumKind.normal 10).2.get LumKind.normal =
      max 10 (5 * 4 / 4) ∧
    (ensureLumBuffer ⟨16, 0⟩ LumKind.normal 10).2 = ⟨16, 0⟩ := by
  have h1 := ensureLumBuffer_growth_amended ⟨4, 0⟩ LumKind.normal 10
  have h2 := ensureLumBuffer_growth_amended ⟨16, 0⟩ LumKind.normal 10
  exact ⟨(h1.2.2.1 (by decide) (by decide) (by decide)).1,
    (h2.2.2.2.1 (by decide) (by decide) (by decide)).2⟩

/-! ## Decoder instances, canvas pools and the module-level luminance
state (claim C2)

`QRDecoder` keeps `sharedPool` and `cropPool` as private instance
fields, while qrcore.ts keeps `lumBuf` and `videoLumBuf` at module
scope.  The system state below carries the module state once and one
canvas-pool pair per decoder instance (indexed by an instance id). -/

/-- Which canvas pool of a decoder instance (`'shared' | 'crop'`). -/
inductive TargetKind | shared | crop
deriving DecidableEq

/-- Keys of one canvas pool, in insertion order.  The source keys the
`Map` by the string `"{w}x{h}"`; the pair of clamped dimensions is in
bijection with those strings. -/
structure CanvasPools where
  shared : List (Int × Int)
  crop : List (Int × Int)
deriving DecidableEq

/-- `POOL_MAX = 12` of the `QRDecoder` class. -/
def POOL_MAX : Nat := 12

/-- Key set update of `ensurePooledCanvas`: reuse an existing entry,
otherwise insert at the end and evict the oldest entry (FIFO) when the
capacity is exceeded. -/
def ensurePooledCanvasKeys (pool : List (Int × Int)) (width height : Int) :
    List (Int × Int) :=
  let k := (max 1 width, max 1 height)
  if k ∈ pool then pool
  else
    let p := pool ++ [k]
    if POOL_MAX < p.length then p.drop 1 else p

def CanvasPools.ensure (p : CanvasPools) (kind : TargetKind) (width height : Int) :
    CanvasPools :=
  match kind with
  | .shared => { p with shared := ensurePooledCanvasKeys p.shared width height }
  | .crop => { p with crop := ensurePooledCanvasKeys p.crop width height }

/-- Whole-system state: the qrcore.ts module state plus the per-instance
canvas pools of every decoder instance. -/
structure SysState where
  lum : LumPools
  canvas : Nat → CanvasPools

/-- Canvas-pool effect of a decode performed through instance `id`:
only that instance's own pools are touched
(`this.sharedPool` / `this.cropPool`). -/
def decoderEnsureCanvas (id : Nat) (kind : TargetKind) (width height : Int)
    (s : SysState) : SysState :=
  { s with canvas := fun j => if j = id then (s.canvas j).ensure kind width height
                              else s.canvas j }

/-- Luminance effect of a one-shot decode performed through instance
`id`: `decodeQrFromUint8ClampedArray` calls `ensureLumBuffer('normal', …)`,
which reads and writes the module-scope `lumBuf` — the instance id does
not enter the call at all. -/
def decoderDecodeLum (id : Nat) (pixelCount : Nat) (s : SysState) : SysState :=
  { s with lum := (ensureLumBuffer s.lum .normal pixelCount).2 }

/-- Combined pooling effect of one full-frame decode through instance
`id`: one `shared`-pool canvas of the target size, then the luminance
conversion into the `normal` class pool. -/
def decoderDecodeEffect (id : Nat) (width height : Int) (pixelCount : Nat)
    (s : SysState) : SysState :=
  decoderDecodeLum id pixelCount (decoderEnsureCanvas id .shared width height s)

/-- Luminance-pool state that instance `id`'s operations observe: every
instance reads the same module-level `lumBuf` / `videoLumBuf`. -/
def lumPoolsSeenBy (id : Nat) (s : SysState) : LumPools := s.lum

/-- System state with empty pools everywhere. -/
def sysInit : SysState := ⟨⟨0, 0⟩, fun j => ⟨[], []⟩⟩

/-- C2 counterexample.  Starting from fresh state, a decode through
instance 1 (256 pixels) changes the luminance-pool state that instance
2 observes: the normal-class capacity goes from 0 to 256.  The
luminance buffers are module-level shared state, not owned by one
decoder instance. -/
theorem lum_pool_sharing_counterexample :
    lumPoolsSeenBy 2 (decoderDecodeEffect 1 16 16 256 sysInit) ≠
      lumPoolsSeenBy 2 sysInit := by
  decide

/-- C2 (amended).  The raster surface (canvas) pools are exclusively
owned per decoder instance: a decode through instance `i` never changes
the canvas pools of a distinct instance `j`.  The luminance buffers,
however, live at module scope in qrcore.ts and are shared by every
instance: the effect of a decode on them is independent of the
performing instance, and the state observed afterwards is the same for
every observing instance. -/
theorem pool_ownership_amended (s : SysState) (i j : Nat) (width height : Int)
    (pixelCount : Nat) (hij : i ≠ j) :
    (decoderDecodeEffect i width height pixelCount s).canvas j = s.canvas j ∧
    lumPoolsSeenBy j (decoderDecodeEffect i width height pixelCount s) =
      (ensureLumBuffer s.lum .normal pixelCount).2 ∧
    (∀ i2 j2 : Nat,
      lumPoolsSeenBy j2 (decoderDecodeEffect i2 width height pixelCount s) =
        lumPoolsSeenBy j (decoderDecodeEffect i width height pixelCount s)) := by
  refine ⟨?_, rfl, fun i2 j2 => rfl⟩
  simp only [decoderDecodeEffect, decoderDecodeLum, decoderEnsureCanvas]
  rw [if_neg (fun h => hij (h.symm))]

/-- Witness for `pool_ownership_amended` with instances 1 and 2 on a
concrete state. -/
theorem pool_ownership_amended_witness :
    (decoderDecodeEffect 1 16 16 256 sysInit).canvas 2 = sysInit.canvas 2 ∧
    lumPoolsSeenBy 2 (decoderDecodeEffect 1 16 16 256 sysInit) =
      (ensureLumBuffer sysInit.lum .normal 256).2 := by
  have h := pool_ownership_amended sysInit 1 2 16 16 256 (by decide)
  exact ⟨h.1, h.2.1⟩

/-! ## Decode engine adapter (`attemptDecode`,
`decodeQrFromUint8ClampedArray` / `decodeQrFromVideoRgba`) — claim C4

The ZXing reader is a black box; its behaviour on the fixed luminance
image is abstracted by an oracle mapping a binarizer and a hint set to
either a decoded text or a thrown exception class.  `instanceof`
classification inside `attemptDecode` and the name/message regexes of
`isExpectedZxingFailure` test the same three exception classes, so both
are modelled by `ZxErr.benign`.  Reader instances are numbered so that
freshness per `attemptDecode` invocation is visible in the trace. -/

/-- Classified ZXing exception: the three benign classes plus
everything else. -/
inductive ZxErr | notFound | checksum | format | other
deriving DecidableEq

/-- Benign decode failures: `NotFoundException`, `ChecksumException`,
`FormatException`. -/
def ZxErr.benign : ZxErr → Bool
  | .other => false
  | _ => true

/-- Binarizer used for one `reader.decode` call. -/
inductive Binzr | globalHistogram | hybrid
deriving DecidableEq

/-- Hint set: `baseHints` or `harderHints` (TRY_HARDER). -/
inductive HintSet | base | harder
deriving DecidableEq

/-- One `reader.decode` call recorded in the trace: which reader
instance, which binarizer, which hints. -/
structure ReaderCall where
  reader : Nat
  binzr : Binzr
  hints : HintSet
deriving DecidableEq

/-- Behaviour of `reader.decode` on the fixed luminance image, as a
function of binarizer and hints (fresh readers are stateless, so the
outcome does not depend on the reader id). -/
def ZxOracle := Binzr → HintSet → Except ZxErr String

/-- `attemptDecode(luminances, w, h, hints, label)`: constructs one
fresh reader (`readerId`), tries the GlobalHistogram binarizer, and on
a benign exception retries once with the Hybrid binarizer using the
same reader; any other exception propagates.  Returns the outcome and
the list of `reader.decode` calls made. -/
def attemptDecode (oracle : ZxOracle) (hints : HintSet) (readerId : Nat) :
    Except ZxErr String × List ReaderCall :=
  match oracle .globalHistogram hints with
  | .ok t => (.ok t, [⟨readerId, .globalHistogram, hints⟩])
  | .error e =>
    if e.benign then
      (oracle .hybrid hints,
        [⟨readerId, .globalHistogram, hints⟩, ⟨readerId, .hybrid, hints⟩])
    else (.error e, [⟨readerId, .globalHistogram, hints⟩])

/-- Retry logic shared verbatim by `decodeQrFromUint8ClampedArray` and
`decodeQrFromVideoRgba` (they differ only in which luminance pool the
conversion writes to): run `attemptDecode` with `baseHints`; if it
throws a benign failure, run `attemptDecode` again with `harderHints`
and a second fresh reader; otherwise rethrow. -/
def decodeQrWithRetries (oracle : ZxOracle) :
    Except ZxErr String × List ReaderCall :=
  match attemptDecode oracle .base 0 with
  | (.ok t, t1) => (.ok t, t1)
  | (.error e, t1) =>
    if e.benign then
      let r2 := attemptDecode oracle .harder 1
      (r2.1, t1 ++ r2.2)
    else (.error e, t1)

theorem attemptDecode_trace (oracle : ZxOracle) (hints : HintSet) (rid : Nat) :
    (attemptDecode oracle hints rid).2 =
      match oracle .globalHistogram hints with
      | .ok _ => [⟨rid, .globalHistogram, hints⟩]
      | .error e =>
        if e.benign then
          [⟨rid, .globalHistogram, hints⟩, ⟨rid, .hybrid, hints⟩]
        else [⟨rid, .globalHistogram, hints⟩] := by
  unfold attemptDecode
  cases oracle .globalHistogram hints with
  | ok t => rfl
  | error e => by_cases hb : e.benign <;> simp [hb]

/-- C4.  For every oracle behaviour: (1) the first `reader.decode` call
uses the GlobalHistogram binarizer under base hints; (2) the Hybrid
binarizer runs under base hints iff GlobalHistogram under base hints
threw a benign failure; (3) TRY_HARDER calls happen iff both
binarizations threw benign failures under base hints; (4) a non-benign
exception from either base binarization propagates as the result with
no TRY_HARDER retry; (5) the base and TRY_HARDER invocations use
distinct (fresh) reader instances. -/
theorem decode_retry_policy (oracle : ZxOracle) :
    ((decodeQrWithRetries oracle).2.head? =
      some ⟨0, .globalHistogram, .base⟩) ∧
    ((⟨0, .hybrid, .base⟩ : ReaderCall) ∈ (decodeQrWithRetries oracle).2 ↔
      ∃ e, oracle .globalHistogram .base = .error e ∧ e.benign = true) ∧
    ((∃ c ∈ (decodeQrWithRetries oracle).2, c.hints = HintSet.harder) ↔
      (∃ e1, oracle .globalHistogram .base = .error e1 ∧ e1.benign = true) ∧
      (∃ e2, oracle .hybrid .base = .error e2 ∧ e2.benign = true)) ∧
    (∀ e1, oracle .globalHistogram .base = .error e1 → e1.benign = false →
      (decodeQrWithRetries oracle).1 = .error e1 ∧
      (decodeQrWithRetries oracle).2 = [⟨0, .globalHistogram, .base⟩]) ∧
    (∀ e1 e2, oracle .globalHistogram .base = .error e1 → e1.benign = true →
      oracle .hybrid .base = .error e2 → e2.benign = false →
      (decodeQrWithRetries oracle).1 = .error e2 ∧
      (decodeQrWithRetries oracle).2 =
        [⟨0, .globalHistogram, .base⟩, ⟨0, .hybrid, .base⟩]) ∧
    (∀ c ∈ (decodeQrWithRetries oracle).2,
      (c.hints = HintSet.base → c.reader = 0) ∧
      (c.hints = HintSet.harder → c.reader = 1)) := by
  unfold decodeQrWithRetries attemptDecode
  cases hg : oracle Binzr.globalHistogram HintSet.base with
  | ok t =>
    refine ⟨?_, ?_, ?_, ?_, ?_, ?_⟩ <;> simp_all [ZxErr.benign]
  | error e1 =>
    by_cases hb1 : e1.benign = true
    · cases hh : oracle Binzr.hybrid HintSet.base with
      | ok t2 =>
        refine ⟨?_, ?_, ?_, ?_, ?_, ?_⟩ <;> simp_all [ZxErr.benign]
      | error e2 =>
        by_cases hb2 : e2.benign = true
        · cases hg2 : oracle Binzr.globalHistogram HintSet.harder with
          | ok t3 =>
            refine ⟨?_, ?_, ?_, ?_, ?_, ?_⟩ <;> simp_all [ZxErr.benign]
          | error e3 =>
            by_cases hb3 : e3.benign = true <;>
              refine ⟨?_, ?_, ?_, ?_, ?_, ?_⟩ <;> simp_all [ZxErr.benign]
        · refine ⟨?_, ?_, ?_, ?_, ?_, ?_⟩ <;> simp_all [ZxErr.benign]
    · refine ⟨?_, ?_, ?_, ?_, ?_, ?_⟩ <;> simp_all [ZxErr.benign]

/-- Witness for `decode_retry_policy` on an oracle whose GlobalHistogram
pass always throws `NotFound` and whose Hybrid pass succeeds under base
hints: the Hybrid base call is present in the trace. -/
theorem decode_retry_policy_witness :
    (⟨0, Binzr.hybrid, HintSet.base⟩ : ReaderCall) ∈
      (decodeQrWithRetries (fun b _ =>
        match b with
        | .globalHistogram => .error ZxErr.notFound
        | .hybrid => .ok "Q")).2 := by
  exact (decode_retry_policy (fun b _ =>
    match b with
    | .globalHistogram => .error ZxErr.notFound
    | .hybrid => .ok "Q")).2.1.mpr ⟨ZxErr.notFound, rfl, rfl⟩

/-! ## Video scan state machine (`startVideoScan` internals)

The per-frame callback `tick` is modelled as a pure step function on an
explicit state record.  The work done inside `attemptROI`,
`attemptSearch` and `attemptRescueFull` (cropping, rasterizing and the
qrcore decode) is abstracted per frame by oracle inputs carried in
`TickInput`: an `Except.error` input models a thrown exception (e.g. a
tainted canvas) surfacing from the attempt, an `Except.ok` input the
`DecodeResult` the attempt returned.  Decoded results carry only the
text (rawBytes/metadata play no role in any claim). -/

/-- `'search' | 'track'`. -/
inductive VideoScanMode | search | track
deriving DecidableEq

/-- Bounding box of a detection (JavaScript numbers). -/
structure Box where
  x : ℚ
  y : ℚ
  width : ℚ
  height : ℚ
deriving DecidableEq

/-- One `DetectedQR` entry from the BarcodeDetector (corner points are
dropped: they only flow into emitted metadata). -/
structure Detection where
  rawValue : Option String
  boundingBox : Option Box
deriving DecidableEq

/-- Outcome of `detectWithBarcodeDetector`: unsupported platforms skip
the fast path; a detector that throws is reported as supported with an
empty detection list. -/
inductive DetectOutcome
  | unsupported
  | supported (detections : List Detection)
deriving DecidableEq

/-- Failure taxonomy of `classifyDecodeError`. -/
inductive FailReason | notFound | checksum | format | unknown
deriving DecidableEq

/-- `DecodeResult` of the decoder: tagged success (text) or failure
(reason). -/
inductive DecodeResult
  | ok (text : String)
  | fail (reason : FailReason)
deriving DecidableEq

def DecodeResult.isOk : DecodeResult → Bool
  | .ok _ => true
  | .fail _ => false

/-- Sort key of the detection ordering:
`(boundingBox?.width ?? 1) * (boundingBox?.height ?? 1)`. -/
def detArea (d : Detection) : ℚ :=
  (match d.boundingBox with | some b => b.width | none => 1) *
  (match d.boundingBox with | some b => b.height | none => 1)

/-- Stable insertion keeping larger areas first; an element is placed
before later elements of equal area, matching the stable
comparator sort of the source. -/
def insertByAreaDesc (d : Detection) : List Detection → List Detection
  | [] => [d]
  | x :: xs => if detArea x ≤ detArea d then d :: x :: xs else x :: insertByAreaDesc d xs

/-- `detections.slice().sort((a, b) => areaB - areaA)`: stable sort by
descending bounding-box area. -/
def sortByAreaDesc : List Detection → List Detection
  | [] => []
  | x :: xs => insertByAreaDesc x (sortByAreaDesc xs)

/-- Configuration captured by the `startVideoScan` closure, after the
`Math.max` normalizations at entry (`fps* ≥ 1`, `trackFailThreshold ≥ 1`,
`rescueEveryMs ≥ 0`, `dedupeMs ≥ 0`).  The maxEdge budgets only shape
the cropping, which the attempt oracles absorb. -/
structure ScanConfig where
  fpsSearch : ℚ
  fpsTrack : ℚ
  trackFailThreshold : ℚ
  rescueEveryMs : ℚ
  dedupeMs : ℚ
deriving DecidableEq

def ScanConfig.modeFps (cfg : ScanConfig) : VideoScanMode → ℚ
  | .search => cfg.fpsSearch
  | .track => cfg.fpsTrack

/-- Mutable closure state of `startVideoScan`. -/
structure ScanState where
  running : Bool
  mode : VideoScanMode
  lastAttemptTs : ℚ
  lastRescueTs : ℚ
  lastBox : Option Box
  trackFailCount : Nat
  lastText : Option String
  lastTextTs : ℚ
deriving DecidableEq

/-- Observable callback invocations of one tick: `onAttempt`,
`onResult` (with the frame timestamp and mode of the payload), and
`onError`. -/
inductive ScanEvent
  | attempt (mode : VideoScanMode) (frameTs : ℚ)
  | result (res : DecodeResult) (frameTs : ℚ) (mode : VideoScanMode)
  | errorReported
deriving DecidableEq

/-- Inputs of one frame callback: timestamp, current video frame size,
and the oracle outcomes of the fast-path detector and of the three
possible decode attempts of this frame. -/
structure TickInput where
  frameTs : ℚ
  w : Nat
  h : Nat
  bd : DetectOutcome
  roiAttempt : Except Unit DecodeResult
  searchAttempt : Except Unit DecodeResult
  rescueAttempt : Except Unit DecodeResult

/-- `emitResult(res, frameTs)`: a successful result with non-empty text
is deduplicated — if the same text was emitted less than `dedupeMs` ago
the callback is suppressed and the state is left unchanged; otherwise
`lastText`/`lastTextTs` are updated and `onResult` fires.  An `ok`
result with empty text or a failure result skips the bookkeeping and
fires `onResult` directly. -/
def emitResult (cfg : ScanConfig) (s : ScanState) (res : DecodeResult) (frameTs : ℚ) :
    ScanState × List ScanEvent :=
  match res with
  | .ok text =>
    if text = "" then (s, [.result res frameTs s.mode])
    else if 0 < cfg.dedupeMs ∧ s.lastText = some text ∧
        frameTs - s.lastTextTs < cfg.dedupeMs then
      (s, [])
    else
      ({ s with lastText := some text, lastTextTs := frameTs },
        [.result res frameTs s.mode])
  | .fail _ => (s, [.result res frameTs s.mode])

/-- Result of one phase of `tick`: updated state, events, and whether
the phase returned from the callback (halting the later phases). -/
structure PhaseOut where
  s : ScanState
  evs : List ScanEvent
  halt : Bool

/-- Run `f` after `p` unless `p` returned early. -/
def PhaseOut.seq (p : PhaseOut) (f : ScanState → PhaseOut) : PhaseOut :=
  if p.halt then p
  else
    let q := f p.s
    ⟨q.s, p.evs ++ q.evs, q.halt⟩

/-- Phase 1 of `tick`: fast-path detection.  A detection with a
non-empty `rawValue` (largest area first) stores its box, forces track
mode, resets the failure counter and emits; otherwise the largest box,
when present, refreshes `lastBox`. -/
def bdPhase (cfg : ScanConfig) (s : ScanState) (inp : TickInput) : PhaseOut :=
  match inp.bd with
  | .unsupported => ⟨s, [], false⟩
  | .supported dets =>
    if dets.isEmpty then ⟨s, [], false⟩
    else
      let ordered := sortByAreaDesc dets
      match ordered.find? (fun d =>
          match d.rawValue with | some v => decide (v ≠ "") | none => false) with
      | some d =>
        let s1 := { s with lastBox := d.boundingBox, mode := .track, trackFailCount := 0 }
        let r := emitResult cfg s1 (.ok (d.rawValue.getD "")) inp.frameTs
        ⟨r.1, r.2, true⟩
      | none =>
        match ordered.head? with
        | some d0 =>
          match d0.boundingBox with
          | some b => ⟨{ s with lastBox := some b }, [], false⟩
          | none => ⟨s, [], false⟩
        | none => ⟨s, [], false⟩

/-- Phase 2 of `tick`: in track mode with a known box, attempt the ROI
decode.  Success resets the counter and emits; a thrown attempt reports
the error and ends the tick; a failed (or skipped) attempt increments
the failure counter, and reaching `trackFailThreshold` drops back to
search mode, clearing box and counter. -/
def trackPhase (cfg : ScanConfig) (s : ScanState) (inp : TickInput) : PhaseOut :=
  if s.mode = .track then
    match s.lastBox with
    | some _ =>
      match (if inp.w = 0 ∨ inp.h = 0 then none else some inp.roiAttempt) with
      | some (.error _) => ⟨s, [.errorReported], true⟩
      | some (.ok r) =>
        if r.isOk then
          let s1 := { s with trackFailCount := 0 }
          let e := emitResult cfg s1 r inp.frameTs
          ⟨e.1, e.2, true⟩
        else
          let c := s.trackFailCount + 1
          if cfg.trackFailThreshold ≤ (c : ℚ) then
            ⟨{ s with mode := .search, trackFailCount := 0, lastBox := none }, [], false⟩
          else ⟨{ s with trackFailCount := c }, [], false⟩
      | none =>
        let c := s.trackFailCount + 1
        if cfg.trackFailThreshold ≤ (c : ℚ) then
          ⟨{ s with mode := .search, trackFailCount := 0, lastBox := none }, [], false⟩
        else ⟨{ s with trackFailCount := c }, [], false⟩
    | none => ⟨s, [], false⟩
  else ⟨s, [], false⟩

/-- Phase 3 of `tick`: in search mode, attempt the downsampled
full-frame decode; only success changes state (to track mode). -/
def searchPhase (cfg : ScanConfig) (s : ScanState) (inp : TickInput) : PhaseOut :=
  if s.mode = .search then
    match (if inp.w = 0 ∨ inp.h = 0 then none else some inp.searchAttempt) with
    | some (.error _) => ⟨s, [.errorReported], true⟩
    | some (.ok r) =>
      if r.isOk then
        let s1 := { s with mode := .track, trackFailCount := 0 }
        let e := emitResult cfg s1 r inp.frameTs
        ⟨e.1, e.2, true⟩
      else ⟨s, [], false⟩
    | none => ⟨s, [], false⟩
  else ⟨s, [], false⟩

/-- Phase 4 of `tick`: the rescue pass, when enabled and due.  It
always stamps `lastRescueTs`; only success changes the mode. -/
def rescuePhase (cfg : ScanConfig) (s : ScanState) (inp : TickInput) : PhaseOut :=
  if 0 < cfg.rescueEveryMs ∧ cfg.rescueEveryMs ≤ inp.frameTs - s.lastRescueTs then
    let s1 := { s with lastRescueTs := inp.frameTs }
    match (if inp.w = 0 ∨ inp.h = 0 then none else some inp.rescueAttempt) with
    | some (.error _) => ⟨s1, [.errorReported], true⟩
    | some (.ok r) =>
      if r.isOk then
        let s2 := { s1 with mode := .track, trackFailCount := 0 }
        let e := emitResult cfg s2 r inp.frameTs
        ⟨e.1, e.2, true⟩
      else ⟨s1, [], false⟩
    | none => ⟨s1, [], false⟩
  else ⟨s, [], false⟩

/-- One invocation of the `tick` frame callback.  A stopped scan, a
frame without size, or a frame arriving before `1000/fps` for the
current mode does nothing (only reschedules).  Otherwise the attempt
timestamp is stamped, `onAttempt` fires and the four phases run in
order, later phases skipped after an early return. -/
def tick (cfg : ScanConfig) (s : ScanState) (inp : TickInput) :
    ScanState × List ScanEvent :=
  if s.running = false then (s, [])
  else if inp.w = 0 ∨ inp.h = 0 then (s, [])
  else if inp.frameTs - s.lastAttemptTs < 1000 / cfg.modeFps s.mode then (s, [])
  else
    let s1 : ScanState := { s with lastAttemptTs := inp.frameTs }
    let p := (bdPhase cfg s1 inp).seq (fun s2 => trackPhase cfg s2 inp)
      |>.seq (fun s2 => searchPhase cfg s2 inp)
      |>.seq (fun s2 => rescuePhase cfg s2 inp)
    (p.s, ScanEvent.attempt s1.mode inp.frameTs :: p.evs)

/-- Iterated ticks over a scripted input list, accumulating events. -/
def runTicks (cfg : ScanConfig) : ScanState → List TickInput → ScanState × List ScanEvent
  | s, [] => (s, [])
  | s, i :: rest =>
    let r1 := tick cfg s i
    let r2 := runTicks cfg r1.1 rest
    (r2.1, r1.2 ++ r2.2)

theorem runTicks_append (cfg : ScanConfig) (s : ScanState) (l1 l2 : List TickInput) :
    runTicks cfg s (l1 ++ l2) =
      ((runTicks cfg (runTicks cfg s l1).1 l2).1,
        (runTicks cfg s l1).2 ++ (runTicks cfg (runTicks cfg s l1).1 l2).2) := by
  induction l1 generalizing s with
  | nil => simp [runTicks]
  | cons i rest ih => simp [runTicks, ih, List.append_assoc]

/-- Stepping past a phase that did not return early. -/
theorem seq_cont (s : ScanState) (evs : List ScanEvent) (f : ScanState → PhaseOut) :
    PhaseOut.seq ⟨s, evs, false⟩ f = ⟨(f s).s, evs ++ (f s).evs, (f s).halt⟩ := by
  simp [PhaseOut.seq]

theorem bdPhase_noDetections (cfg : ScanConfig) (s : ScanState) (inp : TickInput)
    (h : inp.bd = DetectOutcome.supported []) :
    bdPhase cfg s inp = ⟨s, [], false⟩ := by
  simp [bdPhase, h]

theorem trackPhase_failCount (cfg : ScanConfig) (s : ScanState) (inp : TickInput)
    (b : Box) (r : DecodeResult)
    (hm : s.mode = .track) (hb : s.lastBox = some b)
    (hw : ¬(inp.w = 0 ∨ inp.h = 0))
    (hr : inp.roiAttempt = .ok r) (hok : r.isOk = false)
    (hc : ¬(cfg.trackFailThreshold ≤ ((s.trackFailCount + 1 : Nat) : ℚ))) :
    trackPhase cfg s inp = ⟨{ s with trackFailCount := s.trackFailCount + 1 }, [], false⟩ := by
  push_cast at hc
  have hc' := not_le.mp hc
  simp [trackPhase, hm, hb, hw, hr, hok, hc']

theorem trackPhase_failThreshold (cfg : ScanConfig) (s : ScanState) (inp : TickInput)
    (b : Box) (r : DecodeResult)
    (hm : s.mode = .track) (hb : s.lastBox = some b)
    (hw : ¬(inp.w = 0 ∨ inp.h = 0))
    (hr : inp.roiAttempt = .ok r) (hok : r.isOk = false)
    (hc : cfg.trackFailThreshold ≤ ((s.trackFailCount + 1 : Nat) : ℚ)) :
    trackPhase cfg s inp =
      ⟨{ s with mode := .search, trackFailCount := 0, lastBox := none }, [], false⟩ := by
  push_cast at hc
  simp [trackPhase, hm, hb, hw, hr, hok, hc]

theorem searchPhase_notSearch (cfg : ScanConfig) (s : ScanState) (inp : TickInput)
    (hm : s.mode = .track) :
    searchPhase cfg s inp = ⟨s, [], false⟩ := by
  simp [searchPhase, hm]

theorem searchPhase_failNoChange (cfg : ScanConfig) (s : ScanState) (inp : TickInput)
    (r : DecodeResult) (hm : s.mode = .search)
    (hw : ¬(inp.w = 0 ∨ inp.h = 0))
    (hr : inp.searchAttempt = .ok r) (hok : r.isOk = false) :
    searchPhase cfg s inp = ⟨s, [], false⟩ := by
  simp [searchPhase, hm, hw, hr, hok]

theorem rescuePhase_off (cfg : ScanConfig) (s : ScanState) (inp : TickInput)
    (h : cfg.rescueEveryMs = 0) :
    rescuePhase cfg s inp = ⟨s, [], false⟩ := by
  simp [rescuePhase, h]

theorem tick_quiet (cfg : ScanConfig) (s : ScanState) (inp : TickInput)
    (sA sB sC sD : ScanState)
    (h1 : s.running = true)
    (hw : ¬(inp.w = 0 ∨ inp.h = 0))
    (hf : ¬(inp.frameTs - s.lastAttemptTs < 1000 / cfg.modeFps s.mode))
    (hbd : bdPhase cfg { s with lastAttemptTs := inp.frameTs } inp = ⟨sA, [], false⟩)
    (htr : trackPhase cfg sA inp = ⟨sB, [], false⟩)
    (hse : searchPhase cfg sB inp = ⟨sC, [], false⟩)
    (hre : rescuePhase cfg sC inp = ⟨sD, [], false⟩) :
    tick cfg s inp = (sD, [ScanEvent.attempt s.mode inp.frameTs]) := by
  unfold tick
  rw [if_neg (by rw [h1]; exact fun hc => Bool.noConfusion hc),
    if_neg hw, if_neg hf]
  simp only [hbd, seq_cont, htr, hse, hre, List.nil_append, List.append_nil]

theorem runTicks_singleton (cfg : ScanConfig) (s : ScanState) (i : TickInput) :
    runTicks cfg s [i] = tick cfg s i := by
  simp [runTicks]


theorem runTicks_append_fst (cfg : ScanConfig) (s : ScanState) (l1 l2 : List TickInput) :
    (runTicks cfg s (l1 ++ l2)).1 = (runTicks cfg (runTicks cfg s l1).1 l2).1 := by
  rw [runTicks_append]


/-! ## Claim C6 — result deduplication window -/

/-- C6.  With `dedupeMs > 0` and a non-empty text `t` new to the scan:
the first successful decode emits `onResult`; a second identical text
arriving within `dedupeMs` of that emission is suppressed (one
invocation in total) and leaves the dedup state unchanged; a second
identical text arriving `dedupeMs + 1` after the first emission is
emitted (two invocations in total); and because a suppressed duplicate
does not update `lastTextTs`, a third identical text at least
`dedupeMs` after the first *emission* is emitted even if it follows the
suppressed duplicate closely. -/
theorem dedupe_window_spec (cfg : ScanConfig) (s : ScanState) (t : String)
    (ts1 ts2 ts3 : ℚ) (hd : 0 < cfg.dedupeMs) (ht : t ≠ "") (h0 : s.lastText = none) :
    ((emitResult cfg s (.ok t) ts1).2.length = 1) ∧
    (ts2 - ts1 < cfg.dedupeMs →
      (emitResult cfg (emitResult cfg s (.ok t) ts1).1 (.ok t) ts2).2.length = 0 ∧
      (emitResult cfg (emitResult cfg s (.ok t) ts1).1 (.ok t) ts2).1 =
        (emitResult cfg s (.ok t) ts1).1) ∧
    (ts2 - ts1 = cfg.dedupeMs + 1 →
      (emitResult cfg (emitResult cfg s (.ok t) ts1).1 (.ok t) ts2).2.length = 1) ∧
    (ts2 - ts1 < cfg.dedupeMs → cfg.dedupeMs ≤ ts3 - ts1 →
      (emitResult cfg (emitResult cfg (emitResult cfg s (.ok t) ts1).1 (.ok t) ts2).1
          (.ok t) ts3).2.length = 1) := by
  have e1 : emitResult cfg s (.ok t) ts1 =
      ({ s with lastText := some t, lastTextTs := ts1 },
        [.result (.ok t) ts1 s.mode]) := by
    simp [emitResult, ht, h0]
  refine ⟨by rw [e1]; rfl, ?_, ?_, ?_⟩
  · intro hlt
    have e2 : emitResult cfg ({ s with lastText := some t, lastTextTs := ts1 })
        (.ok t) ts2 = ({ s with lastText := some t, lastTextTs := ts1 }, []) := by
      simp [emitResult, ht, hd, hlt]
    rw [e1, e2]
    exact ⟨rfl, rfl⟩
  · intro heq
    have hnot : ¬(ts2 - ts1 < cfg.dedupeMs) := by rw [heq]; linarith
    have e2 : emitResult cfg ({ s with lastText := some t, lastTextTs := ts1 })
        (.ok t) ts2 =
        ({ s with lastText := some t, lastTextTs := ts2 },
          [.result (.ok t) ts2 s.mode]) := by
      simp [emitResult, ht, hnot]
    rw [e1, e2]
    rfl
  · intro hlt hge
    have e2 : emitResult cfg ({ s with lastText := some t, lastTextTs := ts1 })
        (.ok t) ts2 = ({ s with lastText := some t, lastTextTs := ts1 }, []) := by
      simp [emitResult, ht, hd, hlt]
    have hnot : ¬(ts3 - ts1 < cfg.dedupeMs) := not_lt.mpr hge
    have e3 : emitResult cfg ({ s with lastText := some t, lastTextTs := ts1 })
        (.ok t) ts3 =
        ({ s with lastText := some t, lastTextTs := ts3 },
          [.result (.ok t) ts3 s.mode]) := by
      simp [emitResult, ht, hnot]
    rw [e1, e2, e3]
    rfl

/-- Witness for `dedupe_window_spec` with `dedupeMs = 800`: texts at
1000 and 1500 yield one emission; texts at 1000 and 1801 yield two. -/
theorem dedupe_window_spec_witness :
    (emitResult ⟨12, 24, 8, 1200, 800⟩ ⟨true, .search, 0, 0, none, 0, none, 0⟩
      (.ok "QR") 1000).2.length = 1 ∧
    (emitResult ⟨12, 24, 8, 1200, 800⟩
      (emitResult ⟨12, 24, 8, 1200, 800⟩ ⟨true, .search, 0, 0, none, 0, none, 0⟩
        (.ok "QR") 1000).1 (.ok "QR") 1500).2.length = 0 ∧
    (emitResult ⟨12, 24, 8, 1200, 800⟩
      (emitResult ⟨12, 24, 8, 1200, 800⟩ ⟨true, .search, 0, 0, none, 0, none, 0⟩
        (.ok "QR") 1000).1 (.ok "QR") 1801).2.length = 1 := by
  have h1 := dedupe_window_spec ⟨12, 24, 8, 1200, 800⟩
    ⟨true, .search, 0, 0, none, 0, none, 0⟩ "QR" 1000 1500 0
    (by norm_num) (by decide) rfl
  have h2 := dedupe_window_spec ⟨12, 24, 8, 1200, 800⟩
    ⟨true, .search, 0, 0, none, 0, none, 0⟩ "QR" 1000 1801 0
    (by norm_num) (by decide) rfl
  exact ⟨h1.1, (h1.2.1 (by norm_num)).1, h2.2.2.1 (by norm_num)⟩

/-! ## Claim C5 — track-failure threshold transition -/

/-- Scripted frame `k` of the C5 scenario: frames every 1000 ms, a live
640×480 video, a supported detector that reports nothing, and all three
decode attempts failing with `not_found`. -/
def c5input (k : Nat) : TickInput :=
  ⟨1000 * ((k : ℚ) + 1), 640, 480, .supported [],
    .ok (.fail .notFound), .ok (.fail .notFound), .ok (.fail .notFound)⟩

/-- Configuration of the C5 scenario with `trackFailThreshold = N` and
the rescue pass disabled (`rescueEveryMs = 0` disables it in the
source). -/
def c5cfg (N : Nat) : ScanConfig := ⟨12, 24, (N : ℚ), 0, 800⟩

/-- State of the C5 scenario after `k` consecutive ROI failures (before
the threshold is hit): still tracking `b` with `trackFailCount = k`. -/
def c5state (b : Box) (k : Nat) : ScanState :=
  ⟨true, .track, 1000 * (k : ℚ), 0, some b, k, none, 0⟩

/-- State of the C5 scenario right after the `N`-th failure: back in
search mode, box cleared, counter reset. -/
def c5end (N : Nat) : ScanState :=
  ⟨true, .search, 1000 * (N : ℚ), 0, none, 0, none, 0⟩

theorem c5_tick_step (N : Nat) (b : Box) (k : Nat) (hlt : k + 1 < N) :
    tick (c5cfg N) (c5state b k) (c5input k) =
      (c5state b (k + 1), [ScanEvent.attempt .track (1000 * ((k : ℚ) + 1))]) := by
  have hw : ¬((c5input k).w = 0 ∨ (c5input k).h = 0) := by simp [c5input]
  have hf : ¬((c5input k).frameTs - (c5state b k).lastAttemptTs <
      1000 / (c5cfg N).modeFps (c5state b k).mode) := by
    simp only [c5input, c5state, c5cfg, ScanConfig.modeFps]
    have h1000 : 1000 * ((k : ℚ) + 1) - 1000 * (k : ℚ) = 1000 := by ring
    rw [h1000]
    norm_num
  have hthr : ¬((c5cfg N).trackFailThreshold ≤
      (((c5state b k).trackFailCount + 1 : Nat) : ℚ)) := by
    simp only [c5cfg, c5state]
    rw [Nat.cast_le]
    omega
  have h := tick_quiet (c5cfg N) (c5state b k) (c5input k) _ _ _ _
    rfl hw hf
    (bdPhase_noDetections _ _ _ rfl)
    (trackPhase_failCount _ _ _ b (.fail .notFound) rfl rfl hw rfl rfl hthr)
    (searchPhase_notSearch _ _ _ rfl)
    (rescuePhase_off _ _ _ rfl)
  rw [h]
  have hts : 1000 * (((k + 1 : Nat)) : ℚ) = 1000 * ((k : ℚ) + 1) := by push_cast; ring
  simp [c5state, c5input, hts]

theorem c5_tick_last (N : Nat) (b : Box) (k : Nat) (heq : k + 1 = N) :
    tick (c5cfg N) (c5state b k) (c5input k) =
      (c5end N, [ScanEvent.attempt .track (1000 * ((k : ℚ) + 1))]) := by
  have hw : ¬((c5input k).w = 0 ∨ (c5input k).h = 0) := by simp [c5input]
  have hf : ¬((c5input k).frameTs - (c5state b k).lastAttemptTs <
      1000 / (c5cfg N).modeFps (c5state b k).mode) := by
    simp only [c5input, c5state, c5cfg, ScanConfig.modeFps]
    have h1000 : 1000 * ((k : ℚ) + 1) - 1000 * (k : ℚ) = 1000 := by ring
    rw [h1000]
    norm_num
  have hthr : ((c5cfg N).trackFailThreshold ≤
      (((c5state b k).trackFailCount + 1 : Nat) : ℚ)) := by
    simp only [c5cfg, c5state]
    rw [Nat.cast_le]
    omega
  have h := tick_quiet (c5cfg N) (c5state b k) (c5input k) _ _ _ _
    rfl hw hf
    (bdPhase_noDetections _ _ _ rfl)
    (trackPhase_failThreshold _ _ _ b (.fail .notFound) rfl rfl hw rfl rfl hthr)
    (searchPhase_failNoChange _ _ _ (.fail .notFound) rfl hw rfl rfl)
    (rescuePhase_off _ _ _ rfl)
  rw [h]
  have hts : 1000 * ((N : Nat) : ℚ) = 1000 * ((k : ℚ) + 1) := by
    rw [← heq]; push_cast; ring
  simp [c5state, c5end, c5input, hts]

/-- C5.  In a running scan in track mode with a known `lastBox` and
`trackFailThreshold = N` (the source clamps it to `≥ 1`), under the
scripted sequence of consecutive ROI failures with no fast-path hit and
no other success: after any `k < N` failures the machine is still in
track mode with the same box and `trackFailCount = k`, and exactly on
the `N`-th failure it transitions to search mode, clears `lastBox` and
resets the counter. -/
theorem track_fail_threshold_transition (N : Nat) (hN : 1 ≤ N) (b : Box) :
    (∀ k, k < N →
      (runTicks (c5cfg N) (c5state b 0) ((List.range k).map c5input)).1 =
        c5state b k) ∧
    (runTicks (c5cfg N) (c5state b 0) ((List.range N).map c5input)).1 = c5end N := by
  have hpre : ∀ k, k < N →
      (runTicks (c5cfg N) (c5state b 0) ((List.range k).map c5input)).1 =
        c5state b k := by
    intro k
    induction k with
    | zero => intro _; simp [runTicks]
    | succ m ih =>
      intro hm
      rw [List.range_succ, List.map_append, runTicks_append_fst, ih (by omega),
        show List.map c5input [m] = [c5input m] from rfl, runTicks_singleton,
        c5_tick_step N b m hm]
  refine ⟨hpre, ?_⟩
  obtain ⟨m, rfl⟩ : ∃ m, N = m + 1 := ⟨N - 1, by omega⟩
  rw [List.range_succ, List.map_append, runTicks_append_fst, hpre m (by omega),
    show List.map c5input [m] = [c5input m] from rfl, runTicks_singleton,
    c5_tick_last (m + 1) b m rfl]

/-- Witness for `track_fail_threshold_transition` at `N = 2`: after one
failure the scan still tracks; after the second it is searching with
the box cleared. -/
theorem track_fail_threshold_transition_witness :
    (runTicks (c5cfg 2) (c5state ⟨1, 2, 3, 4⟩ 0)
        ((List.range 1).map c5input)).1 = c5state ⟨1, 2, 3, 4⟩ 1 ∧
    (runTicks (c5cfg 2) (c5state ⟨1, 2, 3, 4⟩ 0)
        ((List.range 2).map c5input)).1 = c5end 2 := by
  have h := track_fail_threshold_transition 2 (by omega) ⟨1, 2, 3, 4⟩
  exact ⟨h.1 1 (by omega), h.2⟩

/-! ## Claim C10 — `onResult` only carries successes -/

/-- Events emitted by `emitResult` all report the passed result with
the state's current mode. -/
theorem emitResult_events (cfg : ScanConfig) (s : ScanState) (res : DecodeResult)
    (ts : ℚ) :
    ∀ ev ∈ (emitResult cfg s res ts).2, ev = ScanEvent.result res ts s.mode := by
  intro ev hev
  rcases res with t | r
  · simp only [emitResult] at hev
    split_ifs at hev <;> simp_all
  · simp only [emitResult] at hev
    simp_all

theorem PhaseOut.seq_events (p : PhaseOut) (f : ScanState → PhaseOut) :
    ∀ ev ∈ (p.seq f).evs, ev ∈ p.evs ∨ ev ∈ (f p.s).evs := by
  intro ev hev
  unfold PhaseOut.seq at hev
  split at hev
  · exact Or.inl hev
  · rcases List.mem_append.mp (by simpa using hev) with h | h
    · exact Or.inl h
    · exact Or.inr h

theorem bdPhase_events (cfg : ScanConfig) (s : ScanState) (inp : TickInput) :
    ∀ ev ∈ (bdPhase cfg s inp).evs,
      ∃ t ts m, ev = ScanEvent.result (DecodeResult.ok t) ts m := by
  intro ev hev
  rcases hbd : inp.bd with _ | dets <;> simp only [bdPhase, hbd] at hev
  · simp at hev
  · by_cases hD : dets.isEmpty = true <;> simp only [hD, if_true, if_false] at hev
    · simp at hev
    · rcases hfind : (sortByAreaDesc dets).find? (fun d =>
          match d.rawValue with | some v => decide (v ≠ "") | none => false) with _ | d <;>
        simp only [hfind] at hev
      · rcases hh : (sortByAreaDesc dets).head? with _ | d0 <;>
          simp only [hh] at hev
        · simp at hev
        · rcases hbox : d0.boundingBox with _ | b <;> simp only [hbox] at hev <;>
            simp at hev
      · have h := emitResult_events _ _ _ _ ev (by simpa using hev)
        exact ⟨_, _, _, h⟩

theorem trackPhase_events (cfg : ScanConfig) (s : ScanState) (inp : TickInput) :
    ∀ ev ∈ (trackPhase cfg s inp).evs,
      (ev = ScanEvent.errorReported ∧ inp.roiAttempt = Except.error ()) ∨
      ∃ t ts m, ev = ScanEvent.result (DecodeResult.ok t) ts m := by
  intro ev hev
  by_cases hm : s.mode = VideoScanMode.track <;> simp only [trackPhase, hm] at hev
  · rcases hb : s.lastBox with _ | b <;> simp only [hb] at hev
    · simp at hev
    · by_cases hw : inp.w = 0 ∨ inp.h = 0 <;> simp only [hw, if_true, if_false] at hev
      · split_ifs at hev <;> simp at hev
      · rcases hroi : inp.roiAttempt with e | r <;> simp only [hroi] at hev
        · refine Or.inl ⟨by simpa using hev, ?_⟩
          cases e
          rfl
        · rcases r with t | reason
          · simp only [DecodeResult.isOk, eq_self_iff_true, if_true] at hev
            have h := emitResult_events _ _ _ _ ev (by simpa using hev)
            exact Or.inr ⟨_, _, _, h⟩
          · simp only [DecodeResult.isOk, Bool.false_eq_true, if_false] at hev
            split_ifs at hev <;> simp at hev
  · simp at hev

theorem searchPhase_events (cfg : ScanConfig) (s : ScanState) (inp : TickInput) :
    ∀ ev ∈ (searchPhase cfg s inp).evs,
      (ev = ScanEvent.errorReported ∧ inp.searchAttempt = Except.error ()) ∨
      ∃ t ts m, ev = ScanEvent.result (DecodeResult.ok t) ts m := by
  intro ev hev
  by_cases hm : s.mode = VideoScanMode.search <;> simp only [searchPhase, hm] at hev
  · by_cases hw : inp.w = 0 ∨ inp.h = 0 <;> simp only [hw, if_true, if_false] at hev
    · simp at hev
    · rcases hse : inp.searchAttempt with e | r <;> simp only [hse] at hev
      · refine Or.inl ⟨by simpa using hev, ?_⟩
        cases e
        rfl
      · rcases r with t | reason
        · simp only [DecodeResult.isOk, eq_self_iff_true, if_true] at hev
          have h := emitResult_events _ _ _ _ ev (by simpa using hev)
          exact Or.inr ⟨_, _, _, h⟩
        · simp only [DecodeResult.isOk, Bool.false_eq_true, if_false] at hev
          simp at hev
  · simp at hev

theorem rescuePhase_events (cfg : ScanConfig) (s : ScanState) (inp : TickInput) :
    ∀ ev ∈ (rescuePhase cfg s inp).evs,
      (ev = ScanEvent.errorReported ∧ inp.rescueAttempt = Except.error ()) ∨
      ∃ t ts m, ev = ScanEvent.result (DecodeResult.ok t) ts m := by
  intro ev hev
  by_cases hdue : 0 < cfg.rescueEveryMs ∧ cfg.rescueEveryMs ≤ inp.frameTs - s.lastRescueTs <;>
    simp only [rescuePhase, hdue, if_true, if_false] at hev
  · by_cases hw : inp.w = 0 ∨ inp.h = 0 <;> simp only [hw, if_true, if_false] at hev
    · simp at hev
    · rcases hre : inp.rescueAttempt with e | r <;> simp only [hre] at hev
      · refine Or.inl ⟨by simpa using hev, ?_⟩
        cases e
        rfl
      · rcases r with t | reason
        · simp only [DecodeResult.isOk, eq_self_iff_true, if_true] at hev
          have h := emitResult_events _ _ _ _ ev (by simpa using hev)
          exact Or.inr ⟨_, _, _, h⟩
        · simp only [DecodeResult.isOk, Bool.false_eq_true, if_false] at hev
          simp at hev
  · simp at hev

theorem tick_events (cfg : ScanConfig) (s : ScanState) (inp : TickInput) :
    ∀ ev ∈ (tick cfg s inp).2,
      (∃ m ts, ev = ScanEvent.attempt m ts) ∨
      (∃ s2, ev ∈ (bdPhase cfg s2 inp).evs) ∨
      (∃ s2, ev ∈ (trackPhase cfg s2 inp).evs) ∨
      (∃ s2, ev ∈ (searchPhase cfg s2 inp).evs) ∨
      (∃ s2, ev ∈ (rescuePhase cfg s2 inp).evs) := by
  intro ev hev
  unfold tick at hev
  split at hev
  · simp at hev
  · split at hev
    · simp at hev
    · split at hev
      · simp at hev
      · rcases List.mem_cons.mp hev with rfl | hev2
        · exact Or.inl ⟨_, _, rfl⟩
        · rcases PhaseOut.seq_events _ _ ev hev2 with h3 | h3
          · rcases PhaseOut.seq_events _ _ ev h3 with h4 | h4
            · rcases PhaseOut.seq_events _ _ ev h4 with h5 | h5
              · exact Or.inr (Or.inl ⟨_, h5⟩)
              · exact Or.inr (Or.inr (Or.inl ⟨_, h5⟩))
            · exact Or.inr (Or.inr (Or.inr (Or.inl ⟨_, h4⟩)))
          · exact Or.inr (Or.inr (Or.inr (Or.inr ⟨_, h3⟩)))


/-- C10.  In every tick of a video scan, each `onResult` invocation
carries a successful result (`ok` with some text): decode failures are
never delivered through `onResult` (they only advance the internal
counters), and a thrown attempt is reported exclusively through
`onError` — an `onError` report can only stem from a throwing ROI,
search or rescue attempt. -/
theorem onResult_only_success (cfg : ScanConfig) (s : ScanState) (inp : TickInput) :
    (∀ res ts m, ScanEvent.result res ts m ∈ (tick cfg s inp).2 →
      ∃ t, res = DecodeResult.ok t) ∧
    (ScanEvent.errorReported ∈ (tick cfg s inp).2 →
      inp.roiAttempt = Except.error () ∨ inp.searchAttempt = Except.error () ∨
        inp.rescueAttempt = Except.error ()) := by
  constructor
  · intro res ts m hmem
    rcases tick_events cfg s inp _ hmem with ⟨m2, ts2, h⟩ | ⟨s2, h⟩ | ⟨s2, h⟩ | ⟨s2, h⟩ | ⟨s2, h⟩
    · exact absurd h (by simp)
    · rcases bdPhase_events cfg s2 inp _ h with ⟨t, ts3, m3, h2⟩
      injection h2 with h3 h4 h5
      exact ⟨t, h3⟩
    · rcases trackPhase_events cfg s2 inp _ h with ⟨habs, _⟩ | ⟨t, ts3, m3, h2⟩
      · exact absurd habs (by simp)
      · injection h2 with h3 h4 h5
        exact ⟨t, h3⟩
    · rcases searchPhase_events cfg s2 inp _ h with ⟨habs, _⟩ | ⟨t, ts3, m3, h2⟩
      · exact absurd habs (by simp)
      · injection h2 with h3 h4 h5
        exact ⟨t, h3⟩
    · rcases rescuePhase_events cfg s2 inp _ h with ⟨habs, _⟩ | ⟨t, ts3, m3, h2⟩
      · exact absurd habs (by simp)
      · injection h2 with h3 h4 h5
        exact ⟨t, h3⟩
  · intro hmem
    rcases tick_events cfg s inp _ hmem with ⟨m2, ts2, h⟩ | ⟨s2, h⟩ | ⟨s2, h⟩ | ⟨s2, h⟩ | ⟨s2, h⟩
    · exact absurd h (by simp)
    · rcases bdPhase_events cfg s2 inp _ h with ⟨t, ts3, m3, h2⟩
      exact absurd h2 (by simp)
    · rcases trackPhase_events cfg s2 inp _ h with ⟨_, hroi⟩ | ⟨t, ts3, m3, h2⟩
      · exact Or.inl hroi
      · exact absurd h2 (by simp)
    · rcases searchPhase_events cfg s2 inp _ h with ⟨_, hse⟩ | ⟨t, ts3, m3, h2⟩
      · exact Or.inr (Or.inl hse)
      · exact absurd h2 (by simp)
    · rcases rescuePhase_events cfg s2 inp _ h with ⟨_, hre⟩ | ⟨t, ts3, m3, h2⟩
      · exact Or.inr (Or.inr hre)
      · exact absurd h2 (by simp)

section RatEval2

attribute [local semireducible] Rat.add Rat.mul Rat.sub Rat.inv Rat.ofScientific

/-- Witness for `onResult_only_success`: a fast-path hit with value
`"X"` emits exactly an `ok` result. -/
theorem onResult_only_success_witness :
    (ScanEvent.result (DecodeResult.ok "X") 1000 VideoScanMode.track ∈
      (tick ⟨12, 24, 8, 1200, 800⟩ ⟨true, .search, 0, 0, none, 0, none, 0⟩
        ⟨1000, 640, 480, .supported [⟨some "X", some ⟨0, 0, 10, 10⟩⟩],
          .ok (.fail .notFound), .ok (.fail .notFound), .ok (.fail .notFound)⟩).2) ∧
    ∃ t, DecodeResult.ok "X" = DecodeResult.ok t := by
  have hmem : ScanEvent.result (DecodeResult.ok "X") 1000 VideoScanMode.track ∈
      (tick ⟨12, 24, 8, 1200, 800⟩ ⟨true, .search, 0, 0, none, 0, none, 0⟩
        ⟨1000, 640, 480, .supported [⟨some "X", some ⟨0, 0, 10, 10⟩⟩],
          .ok (.fail .notFound), .ok (.fail .notFound), .ok (.fail .notFound)⟩).2 := by
    decide
  exact ⟨hmem, (onResult_only_success _ _ _).1 _ _ _ hmem⟩

end RatEval2

/-! ## Claim C7 — failure priority of the one-shot pipeline -/

theorem mem_insertByAreaDesc {x d : Detection} {l : List Detection} :
    x ∈ insertByAreaDesc d l ↔ x = d ∨ x ∈ l := by
  induction l with
  | nil => simp [insertByAreaDesc]
  | cons y ys ih =>
    unfold insertByAreaDesc
    split_ifs <;> simp_all [List.mem_cons] <;> tauto

theorem mem_sortByAreaDesc {x : Detection} {l : List Detection} :
    x ∈ sortByAreaDesc l ↔ x ∈ l := by
  induction l with
  | nil => simp [sortByAreaDesc]
  | cons y ys ih =>
    unfold sortByAreaDesc
    rw [mem_insertByAreaDesc]
    simp [ih]

/-- ROI stage loop of `decodeFromSource` over the ordered detections:
detections without a numeric bounding box are skipped; a throwing
attempt is caught and ignored; a success returns immediately; an
`unknown` failure (over)writes the cache and the loop continues; a
classified failure is discarded and the loop continues.  The cropping
and decode of one region is abstracted by the per-detection oracle. -/
def roiLoop (oracle : Detection → Except Unit DecodeResult) :
    List Detection → Option DecodeResult → Option DecodeResult ⊕ DecodeResult
  | [], cached => Sum.inl cached
  | d :: rest, cached =>
    match d.boundingBox with
    | none => roiLoop oracle rest cached
    | some _ =>
      match oracle d with
      | .error _ => roiLoop oracle rest cached
      | .ok out =>
        match out with
        | .ok t => Sum.inr (DecodeResult.ok t)
        | .fail .unknown => roiLoop oracle rest (some (DecodeResult.fail .unknown))
        | .fail _ => roiLoop oracle rest cached

/-- Detections carried by a detector outcome. -/
def bdDetections : DetectOutcome → List Detection
  | .unsupported => []
  | .supported dets => dets

/-- Fast-path stage of `decodeFromSource`: when the source is
detectable and the detector reported detections, first short-circuit on
any non-empty `rawValue` (largest area first), then run the ROI loop.
`Sum.inr` is an early return with a result, `Sum.inl` the cached
`unknown` (if any) handed to the later stages. -/
def decodeStage1 (canDetect : Bool) (bd : DetectOutcome)
    (oracle : Detection → Except Unit DecodeResult) :
    Option DecodeResult ⊕ DecodeResult :=
  if canDetect then
    match bd with
    | .supported dets =>
      if dets.isEmpty then Sum.inl none
      else
        let ordered := sortByAreaDesc dets
        match ordered.find? (fun d =>
            match d.rawValue with | some v => decide (v ≠ "") | none => false) with
        | some d => Sum.inr (DecodeResult.ok (d.rawValue.getD ""))
        | none => roiLoop oracle ordered none
    | .unsupported => Sum.inl none
  else Sum.inl none

/-- Full-frame stages of `decodeFromSource`: the fast 640-px pass runs
only when the source exceeds 640 px and only a success of it is used —
its failures and throws are dropped.  Then the 1280-px pass: a success
or a classified failure is returned as is; on an `unknown` failure or a
throw the cached ROI `unknown` takes precedence, with the pass's own
failure as fallback. -/
def decodeLater (stage1 : Option DecodeResult ⊕ DecodeResult) (srcW srcH : Int)
    (fast full : Except Unit DecodeResult) : DecodeResult :=
  match stage1 with
  | Sum.inr res => res
  | Sum.inl cached =>
    let fastRes : Option DecodeResult :=
      if 640 < srcW ∨ 640 < srcH then
        match fast with
        | .ok out => if out.isOk then some out else none
        | .error _ => none
      else none
    match fastRes with
    | some res => res
    | none =>
      match full with
      | .ok (.ok t) => DecodeResult.ok t
      | .ok (.fail r) =>
        if r ≠ FailReason.unknown then DecodeResult.fail r
        else cached.getD (DecodeResult.fail .unknown)
      | .error _ => cached.getD (DecodeResult.fail .unknown)

/-- Failure-selection behaviour of `decodeFromSource(source, srcW,
srcH, options)`: stage 1 composed with the full-frame stages. -/
def decodeFromSource (canDetect : Bool) (bd : DetectOutcome)
    (oracle : Detection → Except Unit DecodeResult) (srcW srcH : Int)
    (fast full : Except Unit DecodeResult) : DecodeResult :=
  decodeLater (decodeStage1 canDetect bd oracle) srcW srcH fast full

/-- Reason returned when every stage fails: the final pass's reason
when classified, `unknown` otherwise. -/
def finalFailureReason : Except Unit DecodeResult → FailReason
  | .ok (.fail r) => r
  | _ => .unknown

theorem roiLoop_all_fail (oracle : Detection → Except Unit DecodeResult)
    (hroi : ∀ d t, oracle d ≠ .ok (.ok t)) :
    ∀ (l : List Detection) (c : Option DecodeResult),
      (c = none ∨ c = some (DecodeResult.fail .unknown)) →
      ∃ c', roiLoop oracle l c = Sum.inl c' ∧
        (c' = none ∨ c' = some (DecodeResult.fail .unknown)) := by
  intro l
  induction l with
  | nil => intro c hc; exact ⟨c, rfl, hc⟩
  | cons d rest ih =>
    intro c hc
    unfold roiLoop
    rcases hbox : d.boundingBox with _ | b
    · exact ih c hc
    · rcases horc : oracle d with e | out
      · exact ih c hc
      · rcases out with t | r
        · exact absurd horc (hroi d t)
        · rcases r with _ | _ | _ | _
          · exact ih c hc
          · exact ih c hc
          · exact ih c hc
          · exact ih (some (DecodeResult.fail .unknown)) (Or.inr rfl)

theorem decodeStage1_all_fail (canDetect : Bool) (bd : DetectOutcome)
    (oracle : Detection → Except Unit DecodeResult)
    (hraw : ∀ d ∈ bdDetections bd, d.rawValue.getD "" = "")
    (hroi : ∀ d t, oracle d ≠ .ok (.ok t)) :
    ∃ c, decodeStage1 canDetect bd oracle = Sum.inl c ∧
      (c = none ∨ c = some (DecodeResult.fail .unknown)) := by
  unfold decodeStage1
  rcases canDetect with _ | _
  · exact ⟨none, rfl, Or.inl rfl⟩
  · rcases bd with _ | dets
    · exact ⟨none, rfl, Or.inl rfl⟩
    · by_cases hD : dets.isEmpty = true
      · simp only [hD, if_true]
        exact ⟨none, rfl, Or.inl rfl⟩
      · have hfind : (sortByAreaDesc dets).find? (fun d =>
            match d.rawValue with | some v => decide (v ≠ "") | none => false) = none := by
          rw [List.find?_eq_none]
          intro x hx
          have hxd : x ∈ dets := mem_sortByAreaDesc.mp hx
          have hg := hraw x hxd
          rcases hval : x.rawValue with _ | v
          · simp
          · simp only [hval, Option.getD_some] at hg
            simp [hg]
        simp only [hD, if_false, Bool.false_eq_true, hfind]
        exact roiLoop_all_fail oracle hroi (sortByAreaDesc dets) none (Or.inl rfl)

theorem decodeLater_fail (c : Option DecodeResult) (srcW srcH : Int)
    (fast full : Except Unit DecodeResult)
    (hc : c = none ∨ c = some (DecodeResult.fail .unknown))
    (hfast : ∀ t, fast ≠ .ok (.ok t))
    (hfull : ∀ t, full ≠ .ok (.ok t)) :
    decodeLater (Sum.inl c) srcW srcH fast full =
      DecodeResult.fail (finalFailureReason full) := by
  have hfastRes : (if 640 < srcW ∨ 640 < srcH then
      match fast with
      | .ok out => if out.isOk then some out else none
      | .error _ => none
      else none) = (none : Option DecodeResult) := by
    split_ifs with hcond
    · rcases fast with e | out
      · rfl
      · rcases out with t | r
        · exact absurd rfl (hfast t)
        · simp [DecodeResult.isOk]
    · rfl
  have hcached : c.getD (DecodeResult.fail .unknown) = DecodeResult.fail .unknown := by
    rcases hc with rfl | rfl <;> rfl
  unfold decodeLater
  rw [hfastRes]
  rcases full with e | out
  · simpa [finalFailureReason] using hcached
  · rcases out with t | r
    · exact absurd rfl (hfull t)
    · by_cases hr : r = FailReason.unknown
      · subst hr
        simpa [finalFailureReason] using hcached
      · simp [finalFailureReason, hr]

/-- C7 (amended).  When every stage fails, `decodeFromSource` returns
the final full-frame pass's failure when its reason is classified;
otherwise the cached ROI `unknown`, if any, else the final pass's
`unknown` — always `fail (finalFailureReason full)`.  Classified
failures of ROI attempts and of the fast pass are discarded, so a
classified reason wins over the cached `unknown` only when it comes
from the final full-frame pass. -/
theorem decode_failure_priority_amended (canDetect : Bool) (bd : DetectOutcome)
    (oracle : Detection → Except Unit DecodeResult) (srcW srcH : Int)
    (fast full : Except Unit DecodeResult)
    (hraw : ∀ d ∈ bdDetections bd, d.rawValue.getD "" = "")
    (hroi : ∀ d t, oracle d ≠ .ok (.ok t))
    (hfast : ∀ t, fast ≠ .ok (.ok t))
    (hfull : ∀ t, full ≠ .ok (.ok t)) :
    decodeFromSource canDetect bd oracle srcW srcH fast full =
      DecodeResult.fail (finalFailureReason full) ∧
    (∀ r, full = .ok (.fail r) → r ≠ FailReason.unknown →
      decodeFromSource canDetect bd oracle srcW srcH fast full = DecodeResult.fail r) := by
  obtain ⟨c, hc1, hc2⟩ := decodeStage1_all_fail canDetect bd oracle hraw hroi
  have hmain : decodeFromSource canDetect bd oracle srcW srcH fast full =
      DecodeResult.fail (finalFailureReason full) := by
    unfold decodeFromSource
    rw [hc1]
    exact decodeLater_fail c srcW srcH fast full hc2 hfast hfull
  refine ⟨hmain, fun r hr hru => ?_⟩
  rw [hmain, hr]
  simp [finalFailureReason]


/-- C7 counterexample.  One detected region whose ROI decode fails
with `checksum` (not cached), a 100×100 source (fast pass skipped), and
a full-frame pass failing with `unknown`: the pipeline returns
`unknown`, not the more specific `checksum` seen at the ROI stage —
refuting the claim that the most specific reason among the attempted
stages is returned. -/
theorem decode_failure_priority_counterexample :
    decodeFromSource true (.supported [⟨none, some ⟨0, 0, 10, 10⟩⟩])
        (fun _ => .ok (.fail .checksum)) 100 100
        (.ok (.fail .notFound)) (.ok (.fail .unknown)) =
      DecodeResult.fail FailReason.unknown ∧
    FailReason.unknown ≠ FailReason.checksum := by
  exact ⟨by decide, by decide⟩

/-- Witness for `decode_failure_priority_amended`: with a classified
`format` failure at the final pass, that reason is returned. -/
theorem decode_failure_priority_amended_witness :
    decodeFromSource true (.supported [⟨none, some ⟨0, 0, 10, 10⟩⟩])
        (fun _ => .ok (.fail .checksum)) 100 100
        (.error ()) (.ok (.fail .format)) = DecodeResult.fail FailReason.format := by
  have h := decode_failure_priority_amended true
    (.supported [⟨none, some ⟨0, 0, 10, 10⟩⟩])
    (fun _ => .ok (.fail .checksum)) 100 100 (.error ()) (.ok (.fail .format))
    (by decide)
    (by intro d t h; simp at h)
    (by intro t h; exact Except.noConfusion h)
    (by intro t h; simp at h)
  exact h.2 FailReason.format rfl (by decide)

end QrPwa
